import Mathlib

/-!
Shallow embedding of `src/scsequtil/fastq.py` (package `scsequtil`, Python 3.3-3.6).

Strings are modelled as `List Char`, byte strings as `List Nat` (each entry a byte
value), Python `int` as `Int`, and Python `float` by its decimal literal
(`str(float)` round-trips exactly in CPython, so a float is identified with the
literal that denotes it).  Fallible Python code (raised exceptions) is modelled
with `Except PyErr`.
-/

/-- Exception classes raised by the code paths under study. -/
inductive PyErr where
  | typeError
  | valueError
  | keyError
  | attributeError
  | unicodeDecodeError
deriving DecidableEq, Repr

instance {ε α : Type} [DecidableEq ε] [DecidableEq α] : DecidableEq (Except ε α) := fun x y =>
  match x, y with
  | .ok a, .ok b =>
    match decEq a b with
    | isTrue h => isTrue (h ▸ rfl)
    | isFalse h => isFalse (fun hh => h (Except.ok.inj hh))
  | .error e, .error f =>
    match decEq e f with
    | isTrue h => isTrue (h ▸ rfl)
    | isFalse h => isFalse (fun hh => h (Except.error.inj hh))
  | .ok _, .error _ => isFalse (fun hh => Except.noConfusion hh)
  | .error _, .ok _ => isFalse (fun hh => Except.noConfusion hh)

/-- Python values that can reach the record fields and the tag codec:
`str`, `bytes`, `int`, `float` (held as its decimal literal), and a stand-in
constructor `vnone` for any value of another class (e.g. `None`). -/
inductive PyVal where
  | vstr (s : List Char)
  | vbytes (b : List Nat)
  | vint (n : Int)
  | vfloat (lit : List Char)
  | vnone
deriving DecidableEq, Repr

/-- Characters of a string literal, for readability in concrete statements. -/
def chars (s : String) : List Char := s.data

/-- Byte values of an ASCII string literal. -/
def bchars (s : String) : List Nat := s.data.map Char.toNat

/-- Python `s.split(sep)` for a one-element separator: splits on every
occurrence of `sep`; the result always has `count sep + 1` parts and empty
parts are kept (`''.split(sep) == ['']`). -/
def pySplit [DecidableEq α] (sep : α) : List α → List (List α)
  | [] => [[]]
  | c :: rest =>
    if c = sep then
      [] :: pySplit sep rest
    else
      match pySplit sep rest with
      | [] => [[c]]
      | h :: t => (c :: h) :: t

theorem pySplit_ne_nil [DecidableEq α] (sep : α) (l : List α) : pySplit sep l ≠ [] := by
  induction l with
  | nil => simp [pySplit]
  | cons c rest ih =>
    simp only [pySplit]
    split
    · simp
    · match h : pySplit sep rest with
      | [] => simp
      | h' :: t => simp

theorem length_pySplit [DecidableEq α] (sep : α) (l : List α) :
    (pySplit sep l).length = l.count sep + 1 := by
  induction l with
  | nil => simp [pySplit]
  | cons c rest ih =>
    simp only [pySplit]
    by_cases hc : c = sep
    · subst hc
      simp [List.count_cons, ih]
    · simp only [if_neg hc]
      match h : pySplit sep rest with
      | [] => exact absurd h (pySplit_ne_nil sep rest)
      | h' :: t =>
        rw [h] at ih
        simp only [List.length_cons] at ih ⊢
        rw [List.count_cons, if_neg (by simpa using hc)]
        omega

/-- Numeric value of a run of decimal digits. -/
def digitsToNat (l : List Char) : Nat :=
  l.foldl (fun a c => 10 * a + (c.toNat - 48)) 0

/-- Python `int(s)`: an optional sign followed by at least one decimal digit
(the surrounding-whitespace and underscore-grouping forms accepted by CPython
are not exercised by this code and are left out). `none` models `ValueError`. -/
def pyParseInt (l : List Char) : Option Int :=
  match l with
  | '-' :: ds =>
    if ds.isEmpty then none
    else if ds.all Char.isDigit then some (-(digitsToNat ds : Int)) else none
  | '+' :: ds =>
    if ds.isEmpty then none
    else if ds.all Char.isDigit then some (digitsToNat ds : Int) else none
  | ds =>
    if ds.isEmpty then none
    else if ds.all Char.isDigit then some (digitsToNat ds : Int) else none

/-- Drops one leading sign character, if present. -/
def stripSign : List Char → List Char
  | '+' :: r => r
  | '-' :: r => r
  | l => l

/-- Accepts `digits`, `digits.digits`, `digits.`, `.digits`. -/
def isMantissa (l : List Char) : Bool :=
  match pySplit '.' l with
  | [a] => !a.isEmpty && a.all Char.isDigit
  | [a, b] => (a.all Char.isDigit && b.all Char.isDigit) && (!a.isEmpty || !b.isEmpty)
  | _ => false

/-- Python `float(s)` accepts `s` (sign, mantissa, optional exponent; the
`inf`/`nan` spellings and whitespace, not exercised here, are left out). -/
def isFloatLit (l : List Char) : Bool :=
  match pySplit 'e' (l.map Char.toLower) with
  | [m] => isMantissa (stripSign m)
  | [m, e] =>
    isMantissa (stripSign m) &&
      (!(stripSign e).isEmpty && (stripSign e).all Char.isDigit)
  | _ => false

/-- UTF-8 encoding of one character. -/
def utf8EncodeCharB (c : Char) : List Nat :=
  let n := c.toNat
  if n < 0x80 then [n]
  else if n < 0x800 then [0xC0 + n / 0x40, 0x80 + n % 0x40]
  else if n < 0x10000 then [0xE0 + n / 0x1000, 0x80 + n / 0x40 % 0x40, 0x80 + n % 0x40]
  else [0xF0 + n / 0x40000, 0x80 + n / 0x1000 % 0x40, 0x80 + n / 0x40 % 0x40, 0x80 + n % 0x40]

/-- Python `s.encode()` (UTF-8). -/
def pyEncode (s : List Char) : List Nat := (s.map utf8EncodeCharB).flatten

/-- Python `b.decode()` (strict UTF-8): `none` models `UnicodeDecodeError`.
Continuation bytes, overlong forms, surrogates and values past U+10FFFF are
rejected as CPython does. -/
def utf8Decode : List Nat → Option (List Char)
  | [] => some []
  | b :: rest =>
    if b < 0x80 then (utf8Decode rest).map (fun cs => Char.ofNat b :: cs)
    else if b < 0xC2 then none
    else if b < 0xE0 then
      match rest with
      | c1 :: r =>
        if 0x80 ≤ c1 then if c1 < 0xC0 then
          (utf8Decode r).map (fun cs => Char.ofNat ((b - 0xC0) * 0x40 + (c1 - 0x80)) :: cs)
        else none else none
      | [] => none
    else if b < 0xF0 then
      match rest with
      | c1 :: c2 :: r =>
        if 0x80 ≤ c1 then if c1 < 0xC0 then if 0x80 ≤ c2 then if c2 < 0xC0 then
          if b = 0xE0 ∧ c1 < 0xA0 then none
          else if b = 0xED ∧ 0xA0 ≤ c1 then none
          else
            (utf8Decode r).map (fun cs =>
              Char.ofNat ((b - 0xE0) * 0x1000 + (c1 - 0x80) * 0x40 + (c2 - 0x80)) :: cs)
        else none else none else none else none
      | _ => none
    else if b < 0xF5 then
      match rest with
      | c1 :: c2 :: c3 :: r =>
        if 0x80 ≤ c1 then if c1 < 0xC0 then if 0x80 ≤ c2 then if c2 < 0xC0 then
        if 0x80 ≤ c3 then if c3 < 0xC0 then
          if b = 0xF0 ∧ c1 < 0x90 then none
          else if b = 0xF4 ∧ 0x90 ≤ c1 then none
          else
            (utf8Decode r).map (fun cs =>
              Char.ofNat ((b - 0xF0) * 0x40000 + (c1 - 0x80) * 0x1000 +
                (c2 - 0x80) * 0x40 + (c3 - 0x80)) :: cs)
        else none else none else none else none else none else none
      | _ => none
    else none

/-- Left-to-right effectful map: the loop of a comprehension that stops at
the first raised exception. -/
def exceptMapList (f : α → Except PyErr β) : List α → Except PyErr (List β)
  | [] => .ok []
  | a :: l =>
    match f a with
    | .error e => .error e
    | .ok b =>
      match exceptMapList f l with
      | .error e => .error e
      | .ok bs => .ok (b :: bs)

/-- Embeds `StrRecord._mktag` (fastq.py lines 235-261): builds `key:type:value`.
The `bytes` branch of the source executes `value.encode()`, but a Python
`bytes` object has no `encode` method, so that branch raises
`AttributeError` before producing a tag. -/
def strMktag (key : List Char) (value : PyVal) : Except PyErr (List Char) :=
  match value with
  | .vstr s => .ok (key ++ ':' :: 'Z' :: ':' :: s)
  | .vfloat lit => .ok (key ++ ':' :: 'f' :: ':' :: lit)
  | .vint n => .ok (key ++ ':' :: 'i' :: ':' :: (toString n).data)
  | .vbytes _ => .error .attributeError
  | .vnone => .error .typeError

/-- Unpacking step `k, t, v = v.split(':')` of the `get_tags` comprehension:
exactly three parts (two `':'` separators), else `ValueError`. -/
def strSegParts (seg : List Char) : Option (List Char × List Char × List Char) :=
  match pySplit ':' seg with
  | [k, t, v] => some (k, t, v)
  | _ => none

/-- Embeds one step of the `StrRecord.get_tags` dict comprehension
(fastq.py lines 217-226): `v.split(':')` must unpack to exactly three parts
(`ValueError` otherwise), then `_str_itype_map[t]` is looked up (`KeyError`
for an unknown type character), then the conversion runs (`ValueError` for a
bad `int`/`float` literal). -/
def strParseSeg (seg : List Char) : Except PyErr (List Char × PyVal) :=
  match strSegParts seg with
  | some (k, t, v) =>
    if t = ['i'] then
      match pyParseInt v with
      | some n => .ok (k, .vint n)
      | none => .error .valueError
    else if t = ['Z'] then .ok (k, .vstr v)
    else if t = ['f'] then
      if isFloatLit v then .ok (k, .vfloat v) else .error .valueError
    else .error .keyError
  | none => .error .valueError

/-- Tag segments scanned by `get_tags`: `self.name[1:].split(';')[:-1]`. -/
def strNameSegs (name : List Char) : List (List Char) :=
  (pySplit ';' (name.drop 1)).dropLast

/-- Embeds `StrRecord.get_tags`; the resulting association list carries the
dict insertion order (later bindings shadow earlier ones on lookup). -/
def strGetTags (name : List Char) : Except PyErr (List (List Char × PyVal)) :=
  exceptMapList strParseSeg (strNameSegs name)

/-- Python dict lookup over an insertion-ordered association list: the last
binding for a key wins; `none` models a `KeyError` turned into `None`. -/
def dictLookup (prs : List (List Char × PyVal)) (key : List Char) : Option PyVal :=
  (prs.reverse.find? (fun p => p.1 == key)).map (fun p => p.2)

/-- Embeds `StrRecord.get_tag` (fastq.py lines 228-232): `get_tags()[key]`
inside `try/except KeyError: return None`.  The `except` also swallows the
`KeyError` raised by `_str_itype_map[t]` for an unknown type character. -/
def strGetTag (name : List Char) (key : List Char) : Except PyErr (Option PyVal) :=
  match strGetTags name with
  | .ok prs => .ok (dictLookup prs key)
  | .error .keyError => .ok none
  | .error e => .error e

/-- Embeds the name produced by `StrRecord.set_tag` (fastq.py line 269):
`'@%s;%s' % (mktag(key, value), self.name[1:])`. -/
def strSetTagName (name key : List Char) (value : PyVal) : Except PyErr (List Char) :=
  (strMktag key value).map (fun t => '@' :: (t ++ ';' :: name.drop 1))

/-- Embeds the name produced by `StrRecord.set_tags` (fastq.py lines 271-280):
`'@%s;%s' % (';'.join(mktag(k, v) for k, v in kv_pairs), self.name[1:])`. -/
def strSetTagsName (name : List Char) (kvs : List (List Char × PyVal)) :
    Except PyErr (List Char) :=
  (exceptMapList (fun p => strMktag p.1 p.2) kvs).map
    (fun ts => '@' :: (List.intercalate [';'] ts ++ ';' :: name.drop 1))

/-- Embeds `BytesRecord._mktag` (fastq.py lines 144-170):
`b'%b:%b:%b' % (key.encode(), tag_type, value)` with `str`/`float`/`int`
values stringified and UTF-8 encoded. -/
def bytesMktag (key : List Char) (value : PyVal) : Except PyErr (List Nat) :=
  match value with
  | .vstr s => .ok (pyEncode key ++ 58 :: 90 :: 58 :: pyEncode s)
  | .vbytes b => .ok (pyEncode key ++ 58 :: 90 :: 58 :: b)
  | .vfloat lit => .ok (pyEncode key ++ 58 :: 102 :: 58 :: pyEncode lit)
  | .vint n => .ok (pyEncode key ++ 58 :: 105 :: 58 :: pyEncode (toString n).data)
  | .vnone => .error .typeError

/-- Unpacking step `k, t, v = v.split(b':')` of `BytesRecord.get_tags`. -/
def bytesSegParts (seg : List Nat) : Option (List Nat × List Nat × List Nat) :=
  match pySplit 58 seg with
  | [k, t, v] => some (k, t, v)
  | _ => none

/-- Embeds one step of the `BytesRecord.get_tags` dict comprehension
(fastq.py lines 130-136).  On the Python versions this package targets
(3.3-3.6, per setup.py) a dict comprehension evaluates the value expression
`_bytes_itype_map[t](v)` before the key expression `k.decode()`. -/
def bytesParseSeg (seg : List Nat) : Except PyErr (List Char × PyVal) :=
  match bytesSegParts seg with
  | some (k, t, v) =>
    match
      (if t = [105] then
        if v.all (· < 128) then
          match pyParseInt (v.map Char.ofNat) with
          | some n => Except.ok (PyVal.vint n)
          | none => Except.error PyErr.valueError
        else Except.error PyErr.valueError
      else if t = [90] then Except.ok (PyVal.vbytes v)
      else if t = [102] then
        if v.all (· < 128) && isFloatLit (v.map Char.ofNat) then
          Except.ok (PyVal.vfloat (v.map Char.ofNat))
        else Except.error PyErr.valueError
      else Except.error PyErr.keyError : Except PyErr PyVal)
    with
    | .error e => .error e
    | .ok tv =>
      match utf8Decode k with
      | some kd => .ok (kd, tv)
      | none => .error .unicodeDecodeError
  | none => .error .valueError

/-- Tag segments scanned by `BytesRecord.get_tags`:
`self.name[1:].split(b';')[:-1]`. -/
def bytesNameSegs (name : List Nat) : List (List Nat) :=
  (pySplit 59 (name.drop 1)).dropLast

/-- Embeds `BytesRecord.get_tags` (fastq.py lines 130-136). -/
def bytesGetTags (name : List Nat) : Except PyErr (List (List Char × PyVal)) :=
  exceptMapList bytesParseSeg (bytesNameSegs name)

/-- Embeds `BytesRecord.get_tag` (fastq.py lines 138-142); like the textual
variant it catches `KeyError` and returns `None`. -/
def bytesGetTag (name : List Nat) (key : List Char) : Except PyErr (Option PyVal) :=
  match bytesGetTags name with
  | .ok prs => .ok (dictLookup prs key)
  | .error .keyError => .ok none
  | .error e => .error e

/-- Embeds the name produced by `BytesRecord.set_tag` (fastq.py line 177):
`b'@%s;%s' % (mktag(key, value), self.name[1:])`. -/
def bytesSetTagName (name : List Nat) (key : List Char) (value : PyVal) :
    Except PyErr (List Nat) :=
  (bytesMktag key value).map (fun t => 64 :: (t ++ 59 :: name.drop 1))

/-- Embeds the name produced by `BytesRecord.set_tags` (fastq.py lines 179-187). -/
def bytesSetTagsName (name : List Nat) (kvs : List (List Char × PyVal)) :
    Except PyErr (List Nat) :=
  (exceptMapList (fun p => bytesMktag p.1 p.2) kvs).map
    (fun ts => 64 :: (List.intercalate [59] ts ++ 59 :: name.drop 1))

/-- Which concrete `Record` subclass an instance belongs to. -/
inductive Variant where
  | strRec
  | bytesRec
deriving DecidableEq, Repr

/-- Embeds a `Record` instance (fastq.py lines 6-29): `_data` is a list of the
four fields `[name, sequence, name2, quality]`, here named slots; `variant`
records the concrete subclass (`StrRecord` or `BytesRecord`). -/
structure Record where
  variant : Variant
  name : PyVal
  sequence : PyVal
  name2 : PyVal
  quality : PyVal
deriving DecidableEq, Repr

/-- Test used by every field setter: `isinstance(value, (bytes, str))`. -/
def PyVal.isStrOrBytes : PyVal → Bool
  | .vstr _ => true
  | .vbytes _ => true
  | _ => false

/-- Embeds the `name` setter (fastq.py lines 35-40): accepts any `str` or
`bytes` value and writes `_data[0]`; anything else raises `TypeError`. -/
def setName (r : Record) (value : PyVal) : Except PyErr Record :=
  if value.isStrOrBytes then .ok { r with name := value } else .error .typeError

/-- Embeds the `sequence` setter (fastq.py lines 46-51). -/
def setSequence (r : Record) (value : PyVal) : Except PyErr Record :=
  if value.isStrOrBytes then .ok { r with sequence := value } else .error .typeError

/-- Embeds the `name2` setter (fastq.py lines 57-62). -/
def setName2 (r : Record) (value : PyVal) : Except PyErr Record :=
  if value.isStrOrBytes then .ok { r with name2 := value } else .error .typeError

/-- Embeds the `quality` setter (fastq.py lines 68-73). -/
def setQuality (r : Record) (value : PyVal) : Except PyErr Record :=
  if value.isStrOrBytes then .ok { r with quality := value } else .error .typeError

/-- Embeds `Reader.record_grouper` (fastq.py lines 302-305):
`zip(*([iter(iterable)] * 4))` takes consecutive groups of four and drops a
trailing partial group. -/
def recordGrouper : List α → List (α × α × α × α)
  | a :: b :: c :: d :: rest => (a, b, c, d) :: recordGrouper rest
  | _ => []

/-- Class chosen by `Reader.__iter__` (fastq.py line 308):
`StrRecord if self._mode == 'r' else BytesRecord`. -/
def variantOf (mode : String) : Variant :=
  if mode = "r" then .strRec else .bytesRec

/-- Embeds `Reader.__iter__` (fastq.py lines 307-310) applied to the line
sequence produced by the external line source. -/
def readerIter (mode : String) (lines : List PyVal) : List Record :=
  (recordGrouper lines).map (fun g => ⟨variantOf mode, g.1, g.2.1, g.2.2.1, g.2.2.2⟩)

/-- Modelled from the spec: the spec sentence "binary mode yields
binary-variant records; any other mode yields textual-variant records",
with `"rb"` as the binary mode (the only binary mode the code's docstrings
name).  Kept separate from `variantOf`, the selection the code performs,
so the two can be compared. -/
def claimedVariantOf (mode : String) : Variant :=
  if mode = "rb" then .bytesRec else .strRec

/-- Arithmetic mean of a list of rationals (`np.mean`); the empty list is not
exercised by the claims. -/
def qMean (l : List ℚ) : ℚ := l.sum / l.length

/-- Embeds `np.unique(data, return_counts=True)`: distinct values in
ascending order, paired with their multiplicities. -/
def npUnique (data : List Int) : List Int × List Nat :=
  let u := List.insertionSort (· ≤ ·) data.dedup
  (u, u.map (fun x => data.count x))

/-- Result of `Reader.estimate_sequence_length`.  `np.std` returns the square
root of `stdSq`; the square is kept so the value stays rational. -/
structure LengthEstimate where
  mean : ℚ
  stdSq : ℚ
  hist : List Int × List Nat
deriving DecidableEq, Repr

/-- Sample buffer filled by `Reader.estimate_sequence_length` (fastq.py lines
320-330): `len(record.sequence) - 1` for at most the first 10000 records,
truncated to the records actually present (`data = data[:i]`). -/
def estimateData (seqs : List (List Char)) : List Int :=
  (seqs.take 10000).map (fun s => (s.length : Int) - 1)

/-- Embeds `Reader.estimate_sequence_length` (fastq.py lines 312-331), applied
to the sequence fields of the records the reader would yield. -/
def estimateSequenceLength (seqs : List (List Char)) : LengthEstimate :=
  { mean := qMean ((estimateData seqs).map (fun n : Int => (n : ℚ)))
    stdSq := qMean (((estimateData seqs).map (fun n : Int => (n : ℚ))).map
      (fun x => (x - qMean ((estimateData seqs).map (fun n : Int => (n : ℚ)))) ^ 2))
    hist := npUnique (estimateData seqs) }

/-- Value of one quality byte read as `np.int8` (two's complement). -/
def int8OfByte (b : Nat) : Int :=
  if b < 128 then (b : Int) else (b : Int) - 256

/-- Conversion `.astype(int)` on a float: truncation toward zero. -/
def pyTruncQ (q : ℚ) : Int := if 0 ≤ q then ⌊q⌋ else ⌈q⌉

/-- Embeds `BytesRecord.average_quality` (fastq.py lines 189-194):
`np.mean(np.frombuffer(self.quality, dtype=np.int8, count=len(self))).astype(int) - 33`.
`count=len(self)` is the length of the sequence field; `frombuffer` raises
`ValueError` when the quality buffer is shorter than that. -/
def averageQuality (seqLen : Nat) (qual : List Nat) : Except PyErr Int :=
  if qual.length < seqLen then .error .valueError
  else .ok (pyTruncQ (qMean ((qual.take seqLen).map (fun b => (int8OfByte b : ℚ)))) - 33)

/-- Embeds `StrRecord.average_quality` (fastq.py lines 282-290): same as the
bytes variant after reading the string's character codes as bytes (the
quality alphabet is ASCII, where the code and the byte coincide). -/
def strAverageQuality (seqLen : Nat) (qual : List Char) : Except PyErr Int :=
  averageQuality seqLen (qual.map Char.toNat)

/-- Embeds the `Tag` namedtuple (fastq.py line 334).  The source calls the
second field `end`, a Lean keyword, rendered here as `stop`. -/
structure Tag where
  start : Int
  stop : Int
  sequence_tag : List Char
  quality_tag : List Char
deriving DecidableEq, Repr

/-- Python slice `s[a:b]`: indices are clamped to `[0, len]`, negative indices
count from the end, and an empty slice results when the clamped bounds cross;
slicing never fails. -/
def pySlice (s : List α) (a b : Int) : List α :=
  let n : Int := s.length
  let lo : Int := if a < 0 then max (n + a) 0 else min a n
  let hi : Int := if b < 0 then max (n + b) 0 else min b n
  (s.drop lo.toNat).take (hi - lo).toNat

/-- Embeds `TagGenerator.extract_tag` (fastq.py lines 358-362). -/
def extract_tag (seq qual : List Char) (t : Tag) :
    (List Char × List Char × Char) × (List Char × List Char × Char) :=
  ((t.sequence_tag, pySlice seq t.start t.stop, 'Z'),
   (t.quality_tag, pySlice qual t.start t.stop, 'Z'))

/-- Tag list built for one record by `TagGenerator.__iter__` (fastq.py lines
351-356): starts from `[]` and extends with both tuples of `extract_tag`
for each descriptor in order. -/
def tagGenRecord (tags : List Tag) (seq qual : List Char) :
    List (List Char × List Char × Char) :=
  tags.foldl (fun acc t => acc ++ [(extract_tag seq qual t).1, (extract_tag seq qual t).2]) []

/-- Embeds `TagGenerator.__iter__` over the (sequence, quality) pairs of the
records the underlying reader yields. -/
def tagGenIter (tags : List Tag) (records : List (List Char × List Char)) :
    List (List (List Char × List Char × Char)) :=
  records.map (fun r => tagGenRecord tags r.1 r.2)

theorem except_map_ok {α β : Type} {f : α → β} {x : Except PyErr α} {y : β}
    (h : x.map f = .ok y) : ∃ a, x = .ok a ∧ y = f a := by
  cases x with
  | ok a => exact ⟨a, rfl, by simpa [Except.map] using h.symm⟩
  | error e => simp [Except.map] at h

theorem setName_frame {r r' : Record} {v : PyVal} (h : setName r v = .ok r') :
    r'.sequence = r.sequence ∧ r'.name2 = r.name2 ∧ r'.quality = r.quality := by
  unfold setName at h
  split at h
  · cases h
    exact ⟨rfl, rfl, rfl⟩
  · cases h

/-- First four elements of a list as a tuple, when there are at least four. -/
def firstFour : List α → Option (α × α × α × α)
  | a :: b :: c :: d :: _ => some (a, b, c, d)
  | _ => none

theorem firstFour_eq_iff (l : List α) (a b c d : α) :
    firstFour l = some (a, b, c, d) ↔
      (l[0]? = some a ∧ l[1]? = some b ∧ l[2]? = some c ∧ l[3]? = some d) := by
  match l with
  | [] => simp [firstFour]
  | [x] => simp [firstFour]
  | [x, y] => simp [firstFour]
  | [x, y, z] => simp [firstFour]
  | x :: y :: z :: w :: rest => simp [firstFour, and_assoc]

theorem recordGrouper_length (l : List α) : (recordGrouper l).length = l.length / 4 := by
  match l with
  | a :: b :: c :: d :: rest =>
    have ih := recordGrouper_length rest
    simp only [recordGrouper, List.length_cons, ih]
    omega
  | [] => simp [recordGrouper]
  | [a] => simp [recordGrouper]
  | [a, b] => simp [recordGrouper]
  | [a, b, c] => simp [recordGrouper]

theorem recordGrouper_getElem? (l : List α) (j : Nat) :
    (recordGrouper l)[j]? = firstFour (l.drop (4 * j)) := by
  match l, j with
  | a :: b :: c :: d :: rest, 0 => simp [recordGrouper, firstFour]
  | a :: b :: c :: d :: rest, (m + 1) =>
    have ih := recordGrouper_getElem? rest m
    have harith : 4 * (m + 1) = 4 * m + 1 + 1 + 1 + 1 := by ring
    simp only [recordGrouper, List.getElem?_cons_succ, harith, List.drop_succ_cons]
    exact ih
  | [], j => simp [recordGrouper, firstFour]
  | [a], j =>
    have : List.drop (4 * j) [a] = [a] ∨ List.drop (4 * j) [a] = [] := by
      cases j with
      | zero => left; rfl
      | succ m => right; apply List.drop_eq_nil_of_le; simp; omega
    rcases this with h | h <;> simp [recordGrouper, h, firstFour]
  | [a, b], j =>
    rcases Nat.eq_zero_or_pos j with rfl | hj
    · simp [recordGrouper, firstFour]
    · have h : List.drop (4 * j) [a, b] = [] := by
        apply List.drop_eq_nil_of_le; simp; omega
      simp [recordGrouper, h, firstFour]
  | [a, b, c], j =>
    rcases Nat.eq_zero_or_pos j with rfl | hj
    · simp [recordGrouper, firstFour]
    · have h : List.drop (4 * j) [a, b, c] = [] := by
        apply List.drop_eq_nil_of_le; simp; omega
      simp [recordGrouper, h, firstFour]

/-- A textual-variant record as produced by the reader in mode `'r'`. -/
def rec0 : Record :=
  ⟨Variant.strRec, .vstr (chars "@r"), .vstr (chars "ACGT"),
    .vstr (chars "+"), .vstr (chars "IIII")⟩

/-- A binary-variant record as produced by the reader in mode `'rb'`. -/
def brec0 : Record :=
  ⟨Variant.bytesRec, .vbytes (bchars "@r"), .vbytes (bchars "ACGT"),
    .vbytes (bchars "+"), .vbytes (bchars "IIII")⟩

/-- Four raw text lines, one FASTQ record. -/
def lines4 : List PyVal :=
  [.vstr (chars "@r"), .vstr (chars "ACGT"), .vstr (chars "+"), .vstr (chars "IIII")]

/-- C1: on the textual variant, `set_tag` with a `bytes` value does not store a
tag at all: `StrRecord._mktag` reaches `value.encode()` on the `bytes` object,
which raises `AttributeError` (`bytes` has no `encode`; the docstring of
`_mktag`/`set_tag` says `bytes` is a supported value kind, so `decode` was the
intent).  The binary variant round-trips the same value, restricting the
failure to `StrRecord`. -/
theorem str_set_tag_bytes_attribute_error :
    strMktag (chars "k") (.vbytes (bchars "AC")) = .error .attributeError ∧
    strSetTagName (chars "@orig") (chars "k") (.vbytes (bchars "AC")) =
      .error .attributeError ∧
    bytesSetTagName (bchars "@orig") (chars "k") (.vbytes (bchars "AC")) =
      .ok (bchars "@k:Z:AC;orig") ∧
    bytesGetTag (bchars "@k:Z:AC;orig") (chars "k") = .ok (some (.vbytes (bchars "AC"))) := by
  decide

/-- C3 counterexample: the claim says any non-binary mode yields
textual-variant records, but the code tests `mode == 'r'` and defaults to the
binary variant, so the (textual) mode `"rt"` yields binary-variant records. -/
theorem mode_rt_yields_bytes_records :
    ("rt" : String) ≠ "rb" ∧
    variantOf "rt" = Variant.bytesRec ∧
    claimedVariantOf "rt" = Variant.strRec ∧
    (readerIter "rt" lines4).map Record.variant = [Variant.bytesRec] := by
  decide

/-- C3 (amended): iteration yields textual-variant records exactly when the
mode is the single string `'r'`; every other mode, binary or not, yields
binary-variant records. -/
theorem variant_selection_iff_mode_r (mode : String) (lines : List PyVal) (r : Record)
    (h : r ∈ readerIter mode lines) :
    (r.variant = Variant.strRec ↔ mode = "r") ∧
    (r.variant = Variant.bytesRec ↔ mode ≠ "r") := by
  have hv : r.variant = variantOf mode := by
    rcases List.mem_map.mp h with ⟨g, _, rfl⟩
    rfl
  rw [hv]
  unfold variantOf
  by_cases hm : mode = "r"
  · simp [hm]
  · simp [hm]

theorem variant_selection_iff_mode_r_witness :
    (Record.mk (variantOf "rb") (PyVal.vstr (chars "@r")) (PyVal.vstr (chars "ACGT"))
        (PyVal.vstr (chars "+")) (PyVal.vstr (chars "IIII"))).variant = Variant.bytesRec ↔
      ("rb" : String) ≠ "r" :=
  (variant_selection_iff_mode_r "rb" lines4
    (Record.mk (variantOf "rb") (PyVal.vstr (chars "@r")) (PyVal.vstr (chars "ACGT"))
      (PyVal.vstr (chars "+")) (PyVal.vstr (chars "IIII"))) (by decide)).2

/-- C5 counterexample: the field setters accept values of either string kind
on either variant — a `bytes` value is accepted into a textual-variant record
and a `str` value into a binary-variant record, with no type error. -/
theorem field_setter_accepts_wrong_kind :
    rec0.variant = Variant.strRec ∧
    setName rec0 (.vbytes (bchars "xy")) = .ok { rec0 with name := .vbytes (bchars "xy") } ∧
    setSequence rec0 (.vbytes (bchars "xy")) =
      .ok { rec0 with sequence := .vbytes (bchars "xy") } ∧
    brec0.variant = Variant.bytesRec ∧
    setName brec0 (.vstr (chars "zz")) = .ok { brec0 with name := .vstr (chars "zz") } := by
  decide

/-- C5 (amended): every field setter of either variant succeeds exactly when
the assigned value is a `str` or a `bytes` (of either kind — the variant is
not consulted), and fails with `TypeError` for any value of another class. -/
theorem setters_reject_only_non_string_kinds (r : Record) (v : PyVal) :
    ((∃ r', setName r v = .ok r') ↔ v.isStrOrBytes = true) ∧
    ((∃ r', setSequence r v = .ok r') ↔ v.isStrOrBytes = true) ∧
    ((∃ r', setName2 r v = .ok r') ↔ v.isStrOrBytes = true) ∧
    ((∃ r', setQuality r v = .ok r') ↔ v.isStrOrBytes = true) ∧
    (v.isStrOrBytes = false →
      setName r v = .error .typeError ∧ setSequence r v = .error .typeError ∧
      setName2 r v = .error .typeError ∧ setQuality r v = .error .typeError) ∧
    (v.isStrOrBytes = true ↔ (∃ s, v = .vstr s) ∨ (∃ b, v = .vbytes b)) := by
  cases v <;>
    simp [setName, setSequence, setName2, setQuality, PyVal.isStrOrBytes]

theorem setters_reject_only_non_string_kinds_witness :
    setName rec0 PyVal.vnone = .error PyErr.typeError ∧
    (∃ r', setName rec0 (PyVal.vbytes (bchars "xy")) = .ok r') := by
  constructor
  · exact ((setters_reject_only_non_string_kinds rec0 PyVal.vnone).2.2.2.2.1 rfl).1
  · exact (setters_reject_only_non_string_kinds rec0 (PyVal.vbytes (bchars "xy"))).1.mpr rfl

/-- C2: iterating the reader over a line source yields `⌊lines/4⌋` records —
all of them for a multiple of four, with a trailing partial group of 1-3
lines silently dropped — and record `j` is built exactly from lines
`4j, 4j+1, 4j+2, 4j+3` in source order. -/
theorem reader_groups_lines_in_fours (mode : String) (lines : List PyVal) :
    (readerIter mode lines).length = lines.length / 4 ∧
    (∀ (j : Nat) (a b c d : PyVal),
      (readerIter mode lines)[j]? = some (Record.mk (variantOf mode) a b c d) ↔
        (lines[4 * j]? = some a ∧ lines[4 * j + 1]? = some b ∧
         lines[4 * j + 2]? = some c ∧ lines[4 * j + 3]? = some d)) := by
  constructor
  · unfold readerIter
    rw [List.length_map, recordGrouper_length]
  · intro j a b c d
    unfold readerIter
    rw [List.getElem?_map, recordGrouper_getElem?]
    have h1 : Option.map
          (fun g : PyVal × PyVal × PyVal × PyVal =>
            Record.mk (variantOf mode) g.1 g.2.1 g.2.2.1 g.2.2.2)
          (firstFour (lines.drop (4 * j))) = some (Record.mk (variantOf mode) a b c d) ↔
        firstFour (lines.drop (4 * j)) = some (a, b, c, d) := by
      constructor
      · intro h
        rcases Option.map_eq_some'.mp h with ⟨⟨g1, g2, g3, g4⟩, hg, hfg⟩
        simp only [Record.mk.injEq] at hfg
        obtain ⟨-, rfl, rfl, rfl, rfl⟩ := hfg
        exact hg
      · intro h
        rw [h]
        rfl
    rw [h1, firstFour_eq_iff]
    simp only [List.getElem?_drop, Nat.add_zero]

theorem reader_groups_lines_in_fours_witness :
    (readerIter "r" lines4).length = lines4.length / 4 ∧
    ((readerIter "r" lines4)[0]? =
        some (Record.mk (variantOf "r") (PyVal.vstr (chars "@r")) (PyVal.vstr (chars "ACGT"))
          (PyVal.vstr (chars "+")) (PyVal.vstr (chars "IIII"))) ↔
      (lines4[4 * 0]? = some (PyVal.vstr (chars "@r")) ∧
       lines4[4 * 0 + 1]? = some (PyVal.vstr (chars "ACGT")) ∧
       lines4[4 * 0 + 2]? = some (PyVal.vstr (chars "+")) ∧
       lines4[4 * 0 + 3]? = some (PyVal.vstr (chars "IIII")))) :=
  ⟨(reader_groups_lines_in_fours "r" lines4).1,
   (reader_groups_lines_in_fours "r" lines4).2 0 (PyVal.vstr (chars "@r"))
     (PyVal.vstr (chars "ACGT")) (PyVal.vstr (chars "+")) (PyVal.vstr (chars "IIII"))⟩

/-- C9: `set_tag`/`set_tags` on either variant only ever assign the `name`
slot (through the `name` setter); the `sequence`, `name2` and `quality`
slots are unchanged whenever the call succeeds. -/
theorem set_tag_modifies_only_name :
    (∀ (r r' : Record) (s k : List Char) (v : PyVal) (n : List Char),
      r.name = .vstr s → strSetTagName s k v = .ok n → setName r (.vstr n) = .ok r' →
      r'.sequence = r.sequence ∧ r'.name2 = r.name2 ∧ r'.quality = r.quality) ∧
    (∀ (r r' : Record) (s : List Nat) (k : List Char) (v : PyVal) (n : List Nat),
      r.name = .vbytes s → bytesSetTagName s k v = .ok n → setName r (.vbytes n) = .ok r' →
      r'.sequence = r.sequence ∧ r'.name2 = r.name2 ∧ r'.quality = r.quality) ∧
    (∀ (r r' : Record) (s : List Char) (kvs : List (List Char × PyVal)) (n : List Char),
      r.name = .vstr s → strSetTagsName s kvs = .ok n → setName r (.vstr n) = .ok r' →
      r'.sequence = r.sequence ∧ r'.name2 = r.name2 ∧ r'.quality = r.quality) ∧
    (∀ (r r' : Record) (s : List Nat) (kvs : List (List Char × PyVal)) (n : List Nat),
      r.name = .vbytes s → bytesSetTagsName s kvs = .ok n → setName r (.vbytes n) = .ok r' →
      r'.sequence = r.sequence ∧ r'.name2 = r.name2 ∧ r'.quality = r.quality) :=
  ⟨fun _ _ _ _ _ _ _ _ h3 => setName_frame h3,
   fun _ _ _ _ _ _ _ _ h3 => setName_frame h3,
   fun _ _ _ _ _ _ _ h3 => setName_frame h3,
   fun _ _ _ _ _ _ _ h3 => setName_frame h3⟩

theorem set_tag_modifies_only_name_witness :
    ({ rec0 with name := PyVal.vstr (chars "@k:Z:v;r") } : Record).sequence = rec0.sequence ∧
    ({ rec0 with name := PyVal.vstr (chars "@k:Z:v;r") } : Record).name2 = rec0.name2 ∧
    ({ rec0 with name := PyVal.vstr (chars "@k:Z:v;r") } : Record).quality = rec0.quality :=
  set_tag_modifies_only_name.1 rec0 { rec0 with name := PyVal.vstr (chars "@k:Z:v;r") }
    (chars "@r") (chars "k") (.vstr (chars "v")) (chars "@k:Z:v;r") rfl (by decide) (by decide)

/-- C10: `set_tag`/`set_tags` rebuild the name as `'@' + tags + ';' + name[1:]`:
the first character of the stored name is dropped unconditionally (an empty
name stays empty after the slice — the call does not fail on it), and
`get_tags` parses `name[1:]`, ignoring whatever the first character is. -/
theorem set_tag_discards_first_name_char :
    (∀ (s k : List Char) (v : PyVal) (n : List Char),
      strSetTagName s k v = .ok n →
      ∃ t, strMktag k v = .ok t ∧ n = '@' :: (t ++ ';' :: s.drop 1)) ∧
    (∀ (s : List Nat) (k : List Char) (v : PyVal) (n : List Nat),
      bytesSetTagName s k v = .ok n →
      ∃ t, bytesMktag k v = .ok t ∧ n = 64 :: (t ++ 59 :: s.drop 1)) ∧
    (∀ (s : List Char) (kvs : List (List Char × PyVal)) (n : List Char),
      strSetTagsName s kvs = .ok n →
      ∃ ts, exceptMapList (fun p => strMktag p.1 p.2) kvs = .ok ts ∧
        n = '@' :: (List.intercalate [';'] ts ++ ';' :: s.drop 1)) ∧
    (∀ (c c' : Char) (s : List Char), strGetTags (c :: s) = strGetTags (c' :: s)) ∧
    (∀ (b b' : Nat) (s : List Nat), bytesGetTags (b :: s) = bytesGetTags (b' :: s)) := by
  refine ⟨?_, ?_, ?_, ?_, ?_⟩
  · intro s k v n h
    rcases except_map_ok h with ⟨t, ht, hn⟩
    exact ⟨t, ht, by simpa using hn⟩
  · intro s k v n h
    rcases except_map_ok h with ⟨t, ht, hn⟩
    exact ⟨t, ht, by simpa using hn⟩
  · intro s kvs n h
    rcases except_map_ok h with ⟨ts, hts, hn⟩
    exact ⟨ts, hts, by simpa using hn⟩
  · intro c c' s
    rfl
  · intro b b' s
    rfl

theorem set_tag_discards_first_name_char_witness :
    ∃ t, strMktag (chars "k") (PyVal.vstr (chars "v")) = .ok t ∧
      chars "@k:Z:v;rig" = '@' :: (t ++ ';' :: (chars "orig").drop 1) :=
  set_tag_discards_first_name_char.1 (chars "orig") (chars "k") (.vstr (chars "v"))
    (chars "@k:Z:v;rig") (by decide)

theorem foldl_append_blocks {β γ : Type} (h : β → List γ) (l : List β) (acc : List γ) :
    l.foldl (fun a t => a ++ h t) acc = acc ++ (l.map h).flatten := by
  induction l generalizing acc with
  | nil => simp
  | cons x xs ih => simp [ih, List.append_assoc]

theorem pySlice_past_end (s : List Char) (a b : Int) (ha : 0 ≤ a)
    (hb : (s.length : Int) ≤ b) : pySlice s a b = s.drop a.toNat := by
  unfold pySlice
  have hbn : ¬ b < 0 := by omega
  have han : ¬ a < 0 := by omega
  simp only [if_neg han, if_neg hbn]
  rw [min_eq_right hb]
  by_cases hc : a ≤ (s.length : Int)
  · rw [min_eq_left hc]
    apply List.take_of_length_le
    rw [List.length_drop]
    omega
  · rw [min_eq_right (by omega : (s.length : Int) ≤ a)]
    have h1 : s.drop ((s.length : Int)).toNat = [] := by
      apply List.drop_eq_nil_of_le
      omega
    have h2 : s.drop a.toNat = [] := by
      apply List.drop_eq_nil_of_le
      omega
    rw [h1, h2]
    simp

/-- C7 counterexample: at the spec's own example the generator emits the
slice `sequence[2:5] = "GTA"` (0-based, half-open), not the `"CGT"` the
claim states. -/
theorem tag_extraction_example_mismatch :
    tagGenIter [⟨2, 5, chars "BC", chars "QB"⟩] [(chars "ACGTACGT", chars "IIIIIIII")] =
      [[(chars "BC", chars "GTA", 'Z'), (chars "QB", chars "III", 'Z')]] ∧
    tagGenIter [⟨2, 5, chars "BC", chars "QB"⟩] [(chars "ACGTACGT", chars "IIIIIIII")] ≠
      [[(chars "BC", chars "CGT", 'Z'), (chars "QB", chars "III", 'Z')]] := by
  decide

/-- C7 (amended): per record the generator emits one flat list holding, for
each descriptor in configuration order, `(sequence_tag, sequence[start:end], 'Z')`
then `(quality_tag, quality[start:end], 'Z')`; a range reaching past the end
of the field degrades to the remaining suffix (or to an empty slice) instead
of failing; on the spec's example input the first emitted value is `"GTA"`. -/
theorem tag_generator_emits_pairs_in_order :
    (∀ (tags : List Tag) (records : List (List Char × List Char)),
      tagGenIter tags records =
        records.map (fun r => (tags.map (fun t =>
          [(t.sequence_tag, pySlice r.1 t.start t.stop, 'Z'),
           (t.quality_tag, pySlice r.2 t.start t.stop, 'Z')])).flatten)) ∧
    (∀ (s : List Char) (a b : Int), 0 ≤ a → (s.length : Int) ≤ b →
      pySlice s a b = s.drop a.toNat) ∧
    tagGenIter [⟨2, 5, chars "BC", chars "QB"⟩] [(chars "ACGTACGT", chars "IIIIIIII")] =
      [[(chars "BC", chars "GTA", 'Z'), (chars "QB", chars "III", 'Z')]] := by
  refine ⟨?_, pySlice_past_end, by decide⟩
  intro tags records
  unfold tagGenIter tagGenRecord
  apply List.map_congr_left
  intro r _
  rw [foldl_append_blocks (fun t => [(extract_tag r.1 r.2 t).1, (extract_tag r.1 r.2 t).2])]
  simp [extract_tag]

theorem tag_generator_emits_pairs_in_order_witness :
    pySlice (chars "ACGT") 1 7 = (chars "ACGT").drop (1 : Int).toNat :=
  tag_generator_emits_pairs_in_order.2.1 (chars "ACGT") 1 7 (by decide) (by decide)

theorem mul_length_le_sum (l : List ℚ) (c : ℚ) (h : ∀ x ∈ l, c ≤ x) :
    c * l.length ≤ l.sum := by
  induction l with
  | nil => simp
  | cons x xs ih =>
    have hx := h x (by simp)
    have hxs := ih (fun y hy => h y (by simp [hy]))
    simp only [List.sum_cons, List.length_cons]
    push_cast
    have hc : c * ((xs.length : ℚ) + 1) = c * xs.length + c := by ring
    rw [hc]
    linarith

theorem le_qMean_of_forall_le (l : List ℚ) (c : ℚ) (hl : l ≠ []) (h : ∀ x ∈ l, c ≤ x) :
    c ≤ qMean l := by
  have hlen : 0 < (l.length : ℚ) := by
    have := List.length_pos.mpr hl
    exact_mod_cast this
  unfold qMean
  exact (le_div_iff₀ hlen).mpr (mul_length_le_sum l c h)

theorem sum_map_sub_const (l : List ℚ) (c : ℚ) :
    (l.map (fun x => x - c)).sum = l.sum - c * l.length := by
  induction l with
  | nil => simp
  | cons x xs ih =>
    simp only [List.map_cons, List.sum_cons, List.length_cons, ih]
    push_cast
    ring

theorem qMean_map_sub_const (l : List ℚ) (c : ℚ) (hl : l ≠ []) :
    qMean (l.map (fun x => x - c)) = qMean l - c := by
  unfold qMean
  rw [List.length_map, sum_map_sub_const]
  have h0 : l.length ≠ 0 := Nat.pos_iff_ne_zero.mp (List.length_pos.mpr hl)
  have hn : (l.length : ℚ) ≠ 0 := Nat.cast_ne_zero.mpr h0
  rw [sub_div, mul_div_assoc, div_self hn, mul_one]

/-- C8: over Phred+33 quality data (every byte in `[33, 127]`),
`average_quality` examines exactly the first `len(sequence)` quality bytes
and returns the truncated arithmetic mean of the per-byte scores
`byte - 33` (the code truncates the mean before subtracting 33, which agrees
with truncating the mean of the already-shifted scores on this byte range);
on quality `"IIII"` with sequence length 4 it returns 40, for both variants. -/
theorem average_quality_truncated_mean :
    (∀ (seqLen : Nat) (qual : List Nat),
      0 < seqLen → seqLen ≤ qual.length →
      (∀ x ∈ qual.take seqLen, 33 ≤ x ∧ x < 128) →
      averageQuality seqLen qual =
        .ok (pyTruncQ (qMean ((qual.take seqLen).map (fun x : Nat => (x : ℚ) - 33))))) ∧
    averageQuality 4 (bchars "IIII") = .ok 40 ∧
    strAverageQuality 4 (chars "IIII") = .ok 40 := by
  refine ⟨?_, ?_, ?_⟩
  · intro seqLen qual hpos hlen hb
    unfold averageQuality
    rw [if_neg (by omega)]
    congr 1
    have hmap : (qual.take seqLen).map (fun x => (int8OfByte x : ℚ)) =
        (qual.take seqLen).map (fun x : Nat => (x : ℚ)) := by
      apply List.map_congr_left
      intro x hx
      unfold int8OfByte
      rw [if_pos (hb x hx).2]
      norm_cast
    have hmap2 : (qual.take seqLen).map (fun x : Nat => (x : ℚ) - 33) =
        ((qual.take seqLen).map (fun x : Nat => (x : ℚ))).map (fun x => x - 33) := by
      rw [List.map_map]
      rfl
    have hne : (qual.take seqLen).map (fun x : Nat => (x : ℚ)) ≠ [] := by
      intro h
      have hlen2 := congrArg List.length h
      simp only [List.length_map, List.length_take, List.length_nil] at hlen2
      omega
    have hge : (33 : ℚ) ≤ qMean ((qual.take seqLen).map (fun x : Nat => (x : ℚ))) := by
      apply le_qMean_of_forall_le _ _ hne
      intro y hy
      rcases List.mem_map.mp hy with ⟨x, hx, rfl⟩
      exact_mod_cast (hb x hx).1
    rw [hmap, hmap2, qMean_map_sub_const _ _ hne]
    unfold pyTruncQ
    rw [if_pos (by linarith), if_pos (by linarith)]
    rw [show ((33 : ℚ)) = ((33 : ℤ) : ℚ) from by norm_num, Int.floor_sub_int]
  · have hb4 : bchars "IIII" = [73, 73, 73, 73] := by decide
    rw [hb4]
    unfold averageQuality
    rw [if_neg (by norm_num)]
    have ht : ([73, 73, 73, 73] : List Nat).take 4 = [73, 73, 73, 73] := by decide
    rw [ht]
    norm_num [qMean, pyTruncQ, int8OfByte]
  · unfold strAverageQuality
    have hb4 : (chars "IIII").map Char.toNat = [73, 73, 73, 73] := by decide
    rw [hb4]
    unfold averageQuality
    rw [if_neg (by norm_num)]
    have ht : ([73, 73, 73, 73] : List Nat).take 4 = [73, 73, 73, 73] := by decide
    rw [ht]
    norm_num [qMean, pyTruncQ, int8OfByte]

theorem average_quality_truncated_mean_witness :
    averageQuality 4 (bchars "IIII") =
      .ok (pyTruncQ (qMean (((bchars "IIII").take 4).map (fun x : Nat => (x : ℚ) - 33)))) :=
  average_quality_truncated_mean.1 4 (bchars "IIII") (by decide) (by decide) (by decide)

/-- C6: `estimate_sequence_length` samples at most the first 10000 records
(fewer when the source runs out, with the buffer cut to the count observed),
stores `len(sequence) - 1` per record, and returns the mean, the standard
deviation (its square here, to stay in `ℚ`) and a histogram of ascending
distinct stored lengths with their counts; on three records of stored
lengths 11, 21, 31 it returns mean 20 and histogram `([10,20,30],[1,1,1])`. -/
theorem estimate_sequence_length_spec :
    (∀ seqs : List (List Char), (estimateData seqs).length = min 10000 seqs.length) ∧
    (∀ (seqs : List (List Char)) (j : Nat),
      (estimateData seqs)[j]? = ((seqs.take 10000)[j]?).map (fun s => (s.length : Int) - 1)) ∧
    (∀ seqs : List (List Char),
      ((estimateSequenceLength seqs).hist.1).Sorted (· ≤ ·) ∧
      ((estimateSequenceLength seqs).hist.1).Nodup ∧
      (∀ x : Int, x ∈ (estimateSequenceLength seqs).hist.1 ↔ x ∈ estimateData seqs) ∧
      (estimateSequenceLength seqs).hist.2 =
        ((estimateSequenceLength seqs).hist.1).map (fun x => (estimateData seqs).count x)) ∧
    estimateSequenceLength [List.replicate 11 'A', List.replicate 21 'C', List.replicate 31 'G'] =
      { mean := 20, stdSq := 200 / 3, hist := ([10, 20, 30], [1, 1, 1]) } := by
  refine ⟨?_, ?_, ?_, ?_⟩
  · intro seqs
    unfold estimateData
    rw [List.length_map, List.length_take]
  · intro seqs j
    unfold estimateData
    rw [List.getElem?_map]
  · intro seqs
    have hh : (estimateSequenceLength seqs).hist = npUnique (estimateData seqs) := rfl
    rw [hh]
    have hperm := List.perm_insertionSort (· ≤ ·) (estimateData seqs).dedup
    refine ⟨?_, ?_, ?_, ?_⟩
    · exact List.sorted_insertionSort _ _
    · exact hperm.symm.nodup (List.nodup_dedup (estimateData seqs))
    · intro x
      exact hperm.mem_iff.trans List.mem_dedup
    · rfl
  · have hd : estimateData [List.replicate 11 'A', List.replicate 21 'C', List.replicate 31 'G'] =
        [10, 20, 30] := by decide
    unfold estimateSequenceLength
    rw [hd]
    have hu : npUnique [10, 20, 30] = ([10, 20, 30], [1, 1, 1]) := by decide
    rw [hu]
    simp only [LengthEstimate.mk.injEq]
    refine ⟨?_, ?_, trivial⟩
    · norm_num [qMean]
    · norm_num [qMean]

theorem estimate_sequence_length_spec_witness :
    ((estimateSequenceLength [List.replicate 11 'A']).hist.1).Sorted (· ≤ ·) :=
  (estimate_sequence_length_spec.2.2.1 [List.replicate 11 'A']).1

/-- Segment whose type character is one the codec knows, after successful
unpacking: the shape every well-formed textual tag triple has. -/
def strSegWellTyped (seg : List Char) : Bool :=
  match strSegParts seg with
  | some (_, t, _) => t == ['i'] || t == ['Z'] || t == ['f']
  | none => false

/-- Binary-variant counterpart of `strSegWellTyped`. -/
def bytesSegWellTyped (seg : List Nat) : Bool :=
  match bytesSegParts seg with
  | some (_, t, _) => t == [105] || t == [90] || t == [102]
  | none => false

theorem strSegParts_eq_none_of_count (seg : List Char) (h : seg.count ':' ≠ 2) :
    strSegParts seg = none := by
  have hl := length_pySplit ':' seg
  unfold strSegParts
  rcases hsp : pySplit ':' seg with _ | ⟨a, _ | ⟨b, _ | ⟨c, _ | ⟨d, rest⟩⟩⟩⟩ <;>
    first
      | rfl
      | (rw [hsp] at hl; simp at hl; omega)

theorem exceptMapList_error_of_mem {α β : Type} (f : α → Except PyErr β) (l : List α) (x : α)
    (hx : x ∈ l) (he : ∃ e, f x = .error e) : ∃ e, exceptMapList f l = .error e := by
  induction l with
  | nil => cases hx
  | cons a l ih =>
    rcases List.mem_cons.mp hx with rfl | hmem
    · rcases he with ⟨e, he⟩
      refine ⟨e, ?_⟩
      simp [exceptMapList, he]
    · cases hfa : f a with
      | error e =>
        refine ⟨e, ?_⟩
        simp [exceptMapList, hfa]
      | ok b =>
        rcases ih hmem with ⟨e, hrec⟩
        refine ⟨e, ?_⟩
        simp [exceptMapList, hfa, hrec]

theorem strParseSeg_error_of_not_wellTyped (seg : List Char)
    (h : strSegWellTyped seg = false) : ∃ e, strParseSeg seg = .error e := by
  unfold strSegWellTyped at h
  unfold strParseSeg
  cases hp : strSegParts seg with
  | none => exact ⟨.valueError, rfl⟩
  | some ktv =>
    obtain ⟨k, t, v⟩ := ktv
    rw [hp] at h
    simp only [Bool.or_eq_false_iff, beq_eq_false_iff_ne, ne_eq] at h
    obtain ⟨⟨h1, h2⟩, h3⟩ := h
    simp only [if_neg h1, if_neg h2, if_neg h3]
    exact ⟨.keyError, rfl⟩

theorem bytesParseSeg_error_of_not_wellTyped (seg : List Nat)
    (h : bytesSegWellTyped seg = false) : ∃ e, bytesParseSeg seg = .error e := by
  unfold bytesSegWellTyped at h
  unfold bytesParseSeg
  cases hp : bytesSegParts seg with
  | none => exact ⟨.valueError, rfl⟩
  | some ktv =>
    obtain ⟨k, t, v⟩ := ktv
    rw [hp] at h
    simp only [Bool.or_eq_false_iff, beq_eq_false_iff_ne, ne_eq] at h
    obtain ⟨⟨h1, h2⟩, h3⟩ := h
    simp only [if_neg h1, if_neg h2, if_neg h3]
    exact ⟨.keyError, rfl⟩

/-- C4 counterexample: on a name whose tag segment has an unknown type
character (`"@k:X:v;orig"`), `get_tags` does raise (`KeyError` from the type
map), but `get_tag` catches exactly that `KeyError` in its absent-key handler
and returns the absent result instead of failing — on both variants. -/
theorem unknown_type_char_get_tag_absent :
    strGetTags (chars "@k:X:v;orig") = .error .keyError ∧
    strGetTag (chars "@k:X:v;orig") (chars "k") = .ok none ∧
    bytesGetTags (bchars "@k:X:v;orig") = .error .keyError ∧
    bytesGetTag (bchars "@k:X:v;orig") (chars "k") = .ok none := by
  decide

/-- C4 (amended): `get_tags` fails on any record whose name holds a tag
segment without exactly two `':'` separators or with an unknown type
character; `get_tag` propagates every decode error except the `KeyError`
produced by an unknown type character, which its absent-key handler converts
to the absent result; `"@bad_no_colon;orig"` fails decode through both
entry points, for every key. -/
theorem malformed_tag_decode (name : List Char) (bname : List Nat) (key : List Char) :
    (∀ seg : List Char, seg.count ':' ≠ 2 → strSegWellTyped seg = false) ∧
    (∀ seg ∈ strNameSegs name, strSegWellTyped seg = false →
      ∃ e, strGetTags name = .error e) ∧
    (∀ e, strGetTags name = .error e → e ≠ .keyError → strGetTag name key = .error e) ∧
    (strGetTags name = .error .keyError → strGetTag name key = .ok none) ∧
    (∀ seg ∈ bytesNameSegs bname, bytesSegWellTyped seg = false →
      ∃ e, bytesGetTags bname = .error e) ∧
    (∀ e, bytesGetTags bname = .error e → e ≠ .keyError → bytesGetTag bname key = .error e) ∧
    (bytesGetTags bname = .error .keyError → bytesGetTag bname key = .ok none) ∧
    strGetTags (chars "@bad_no_colon;orig") = .error .valueError ∧
    strGetTag (chars "@bad_no_colon;orig") key = .error .valueError := by
  refine ⟨?_, ?_, ?_, ?_, ?_, ?_, ?_, ?_, ?_⟩
  · intro seg hc
    unfold strSegWellTyped
    rw [strSegParts_eq_none_of_count seg hc]
  · intro seg hmem hwt
    unfold strGetTags
    exact exceptMapList_error_of_mem _ _ _ hmem (strParseSeg_error_of_not_wellTyped seg hwt)
  · intro e hge hne
    unfold strGetTag
    rw [hge]
    cases e
    case keyError => exact absurd rfl hne
    all_goals rfl
  · intro h
    unfold strGetTag
    rw [h]
  · intro seg hmem hwt
    unfold bytesGetTags
    exact exceptMapList_error_of_mem _ _ _ hmem (bytesParseSeg_error_of_not_wellTyped seg hwt)
  · intro e hge hne
    unfold bytesGetTag
    rw [hge]
    cases e
    case keyError => exact absurd rfl hne
    all_goals rfl
  · intro h
    unfold bytesGetTag
    rw [h]
  · decide
  · unfold strGetTag
    rw [show strGetTags (chars "@bad_no_colon;orig") = .error .valueError from by decide]

theorem malformed_tag_decode_witness :
    (chars "bad_no_colon").count ':' ≠ 2 ∧
    strSegWellTyped (chars "bad_no_colon") = false ∧
    (∃ e, strGetTags (chars "@bad_no_colon;orig") = .error e) := by
  refine ⟨by decide, ?_, ?_⟩
  · exact (malformed_tag_decode (chars "@bad_no_colon;orig") [] []).1
      (chars "bad_no_colon") (by decide)
  · exact (malformed_tag_decode (chars "@bad_no_colon;orig") [] []).2.1
      (chars "bad_no_colon") (by decide) (by decide)
